import Mathlib

/-!
Verification of the SheetUtils spreadsheet helper, shallowly embedded
from src/SheetUtils.js.  JavaScript numbers are modelled as rationals,
strings as Lean strings, and a row object as an association list from
property names to primitive values with first-match lookup.  A Date
value is represented by its millisecond timestamp; the runtime local
time zone is modelled as UTC, and an Invalid Date (a NaN time value) as
none.  The condition-matching engine _matchConditions is embedded over
the condition grammar the code consumes: a condition object is an
ordered list of keyed clauses, where the reserved keys AND, OR and NOT
carry a nested condition object and every other key is a column name
carrying a matcher value.
-/

namespace SheetUtils

/-- A primitive JavaScript value as stored in a row object: a string, a
finite number (modelled as a rational), a boolean, or undefined. -/
inductive JSVal where
  | str (s : String)
  | num (q : ℚ)
  | bool (b : Bool)
  | undef
deriving DecidableEq, Repr

/-- A row object, as built by getTable: property names to values. -/
abbrev Row := List (String × JSVal)

/-- JavaScript property access row[key], yielding undefined for a
missing property.  First match wins, so an entry shadows later ones. -/
def rowGet (row : Row) (key : String) : JSVal :=
  match row with
  | [] => .undef
  | (k, v) :: rest => if k = key then v else rowGet rest key

/-- The test of the regular expression matching four digits, a dash,
two digits, a dash and two digits against the whole string, as used on
cell strings in getTable. -/
def isoPattern (s : String) : Bool :=
  let cs := s.toList
  cs.length == 10 && (cs.getD 0 ' ').isDigit && (cs.getD 1 ' ').isDigit &&
    (cs.getD 2 ' ').isDigit && (cs.getD 3 ' ').isDigit && cs.getD 4 ' ' == '-' &&
    (cs.getD 5 ' ').isDigit && (cs.getD 6 ' ').isDigit && cs.getD 7 ' ' == '-' &&
    (cs.getD 8 ' ').isDigit && (cs.getD 9 ' ').isDigit

/-- The test of the regular expression matching two digits, a dash, two
digits, a dash and four digits against the whole string, as used on row
values before invoking a function matcher in _matchConditions. -/
def mdyPattern (s : String) : Bool :=
  let cs := s.toList
  cs.length == 10 && (cs.getD 0 ' ').isDigit && (cs.getD 1 ' ').isDigit &&
    cs.getD 2 ' ' == '-' && (cs.getD 3 ' ').isDigit && (cs.getD 4 ' ').isDigit &&
    cs.getD 5 ' ' == '-' && (cs.getD 6 ' ').isDigit && (cs.getD 7 ' ').isDigit &&
    (cs.getD 8 ' ').isDigit && (cs.getD 9 ' ').isDigit

/-- Numeric value of a decimal digit character. -/
def digitVal (c : Char) : Nat := c.toNat - 48

/-- Gregorian leap-year rule, as in the JavaScript Date arithmetic. -/
def isLeapYear (y : Int) : Bool :=
  (y % 4 == 0 && !(y % 100 == 0)) || y % 400 == 0

/-- Number of days in a month of the proleptic Gregorian calendar. -/
def daysInMonth (y : Int) (m : Nat) : Nat :=
  if m == 2 then (if isLeapYear y then 29 else 28)
  else if m == 4 || m == 6 || m == 9 || m == 11 then 30
  else 31

/-- Days from the Unix epoch to the civil date given by year, month and
day, the calendar arithmetic underlying the JavaScript Date type. -/
def daysFromCivil (y : Int) (m d : Nat) : Int :=
  let y2 : Int := if m ≤ 2 then y - 1 else y
  let era : Int := y2 / 400
  let yoe : Int := y2 - era * 400
  let mp : Int := ((m : Int) + 9) % 12
  let doy : Int := (153 * mp + 2) / 5 + (d : Int) - 1
  let doe : Int := yoe * 365 + yoe / 4 - yoe / 100 + doy
  era * 146097 + doe - 719468

/-- Construction of a Date from a string of the four-two-two digit
shape: the millisecond timestamp of UTC midnight of that date, or none
(an Invalid Date) when the calendar fields are out of range. -/
def parseISOms (s : String) : Option Int :=
  if isoPattern s then
    let cs := s.toList
    let y : Int := (1000 * digitVal (cs.getD 0 ' ') + 100 * digitVal (cs.getD 1 ' ') +
      10 * digitVal (cs.getD 2 ' ') + digitVal (cs.getD 3 ' ') : Nat)
    let m := 10 * digitVal (cs.getD 5 ' ') + digitVal (cs.getD 6 ' ')
    let d := 10 * digitVal (cs.getD 8 ' ') + digitVal (cs.getD 9 ' ')
    if 1 ≤ m ∧ m ≤ 12 ∧ 1 ≤ d ∧ d ≤ daysInMonth y m then
      some (86400000 * daysFromCivil y m d)
    else none
  else none

/-- Construction of a Date from a month-day-year string of the
two-two-four digit shape: midnight in the local time zone, which this
model fixes to UTC; none models an Invalid Date. -/
def parseMDYms (s : String) : Option Int :=
  if mdyPattern s then
    let cs := s.toList
    let m := 10 * digitVal (cs.getD 0 ' ') + digitVal (cs.getD 1 ' ')
    let d := 10 * digitVal (cs.getD 3 ' ') + digitVal (cs.getD 4 ' ')
    let y : Int := (1000 * digitVal (cs.getD 6 ' ') + 100 * digitVal (cs.getD 7 ' ') +
      10 * digitVal (cs.getD 8 ' ') + digitVal (cs.getD 9 ' ') : Nat)
    if 1 ≤ m ∧ m ≤ 12 ∧ 1 ≤ d ∧ d ≤ daysInMonth y m then
      some (86400000 * daysFromCivil y m d)
    else none
  else none

/-- The time value of a Date constructed from a string, restricted to
the two date-string shapes this code produces or tests; every other
string is modelled as an Invalid Date. -/
def parseDateString (s : String) : Option Int :=
  match parseISOms s with
  | some v => some v
  | none => parseMDYms s

/-- Truncation of a rational toward zero, the ToIntegerOrInfinity step
of the Date constructor on a finite number. -/
def ratTrunc (q : ℚ) : Int := Int.tdiv q.num (q.den : Int)

/-- The time value of a Date constructed from a primitive value:
numbers are truncated toward zero and clipped to the representable
range, strings go through the date-string parser, booleans coerce to 0
or 1, and undefined gives an Invalid Date (none). -/
def toDateMs : JSVal → Option Int
  | .num q => if (ratTrunc q).natAbs ≤ 8640000000000000 then some (ratTrunc q) else none
  | .str s => parseDateString s
  | .bool b => some (if b then 1 else 0)
  | .undef => none

/-- Greedily take decimal digits from the front of a character list. -/
def takeDigits : List Char → List Char × List Char
  | [] => ([], [])
  | c :: cs =>
    if c.isDigit then
      let p := takeDigits cs
      (c :: p.1, p.2)
    else ([], c :: cs)

/-- Value of a most-significant-first digit list. -/
def digitsToNat (ds : List Char) : Nat :=
  ds.foldl (fun acc c => 10 * acc + digitVal c) 0

/-- Parse the optional exponent part of a decimal numeric literal; none
means the remaining characters do not form a valid exponent, so the
whole string coerces to NaN. -/
def parseExp : List Char → Option Int
  | [] => some 0
  | c :: rest =>
    if c == 'e' || c == 'E' then
      let sr : Bool × List Char :=
        match rest with
        | '-' :: r => (true, r)
        | '+' :: r => (false, r)
        | r => (false, r)
      let p := takeDigits sr.2
      if p.1.isEmpty || !p.2.isEmpty then none
      else some (if sr.1 then -(digitsToNat p.1 : Int) else (digitsToNat p.1 : Int))
    else none

/-- The number denoted by a trimmed nonempty string under the
JavaScript Number coercion, restricted to finite decimal literals with
optional sign, fraction and exponent; the hexadecimal, octal, binary
and Infinity forms are not modelled.  none models NaN. -/
def parseDecimal (cs : List Char) : Option ℚ :=
  let sr : Bool × List Char :=
    match cs with
    | '-' :: r => (true, r)
    | '+' :: r => (false, r)
    | r => (false, r)
  let ip := takeDigits sr.2
  let fr : List Char × List Char :=
    match ip.2 with
    | '.' :: r => takeDigits r
    | r => ([], r)
  if ip.1.isEmpty && fr.1.isEmpty then none
  else
    match parseExp fr.2 with
    | none => none
    | some e =>
      let base : ℚ := (digitsToNat ip.1 : ℚ) + (digitsToNat fr.1 : ℚ) / (10 : ℚ) ^ fr.1.length
      let scaled : ℚ := if 0 ≤ e then base * (10 : ℚ) ^ e.toNat else base / (10 : ℚ) ^ (-e).toNat
      some (if sr.1 then -scaled else scaled)

/-- The whitespace test of the JavaScript trim method and Number
coercion: space, tab, line feed, carriage return, vertical tab, form
feed and no-break space. -/
def jsWhitespace (c : Char) : Bool :=
  c == ' ' || c == '\t' || c == '\n' || c == '\r' || c == '\x0b' || c == '\x0c' || c == '\xa0'

/-- The trim method of a string: strip whitespace from both ends. -/
def jsTrim (s : String) : String :=
  String.mk (((s.toList.dropWhile jsWhitespace).reverse.dropWhile jsWhitespace).reverse)

/-- The Number coercion of a string, as used by isNaN on a cell string
and by the rowID branch: surrounding whitespace is ignored and an empty
or all-whitespace string is 0.  none models NaN. -/
def jsNumber (s : String) : Option ℚ :=
  let t := jsTrim s
  if t = "" then some 0 else parseDecimal t.toList

/-- The Number coercion of a primitive value. -/
def toNumber : JSVal → Option ℚ
  | .num q => some q
  | .str s => jsNumber s
  | .bool b => some (if b then 1 else 0)
  | .undef => none

/-- Decimal digit character of a value below ten. -/
def digitChar (d : Nat) : Char := Char.ofNat (48 + d)

/-- Decimal digit characters of a natural number, most significant
first. -/
def natChars (n : Nat) : List Char :=
  if n = 0 then ['0'] else ((Nat.digits 10 n).map digitChar).reverse

/-- Decimal rendering of an integer, with a leading dash if negative. -/
def intChars (i : Int) : List Char :=
  if i < 0 then '-' :: natChars i.natAbs else natChars i.natAbs

/-- The ToString coercion of a primitive value, as applied by the test
method of a regular expression to its argument.  A rational renders as
its numerator, or numerator slash denominator; the exact digit format
of a fractional number is immaterial here, what matters is that a
number never renders with an interior dash. -/
def jsToString : JSVal → String
  | .str s => s
  | .num q => String.mk (if q.den = 1 then intChars q.num else intChars q.num ++ '/' :: natChars q.den)
  | .bool b => if b then "true" else "false"
  | .undef => "undefined"

/-- An entry of an array matcher: a Date value or a primitive. -/
inductive ArrElem where
  | date (ms : Int)
  | val (v : JSVal)
deriving DecidableEq, Repr

/-- The argument a function matcher receives: the raw row value, or the
Date the row value was converted to when it has the two-two-four digit
shape.  An Invalid Date is modelled as none. -/
inductive FnArg where
  | val (v : JSVal)
  | date (ms : Option Int)
deriving DecidableEq, Repr

/-- One matcher value of a condition key, classified the way
_matchConditions inspects its type: a regular expression (modelled by
its test on the string form of the row value), a unary predicate
function, an array of allowed entries, a Date value, or a plain
primitive that falls to the strict-equality default. -/
inductive Matcher where
  | regex (test : String → Bool)
  | func (f : FnArg → Bool)
  | arr (elems : List ArrElem)
  | date (ms : Int)
  | prim (v : JSVal)

/-- One key of a condition object.  The evaluator dispatches on the key
name: the reserved keys AND, OR and NOT carry a nested condition
object, and every other key is a column name carrying a matcher. -/
inductive CClause where
  | and (c : List CClause)
  | or (c : List CClause)
  | not (c : List CClause)
  | field (key : String) (m : Matcher)

/-- A condition object: its keyed clauses in definition order. -/
abbrev Cond := List CClause

/-- The key name of a clause, as it appears in the condition object. -/
def clauseKey : CClause → String
  | .and _ => "AND"
  | .or _ => "OR"
  | .not _ => "NOT"
  | .field k _ => k

/-- The check of membership of the rowID key in the condition object
together with the lookup of its value: the matcher of the first rowID
key, if any. -/
def findRowID : Cond → Option Matcher
  | [] => none
  | .field k m :: rest => if k = "rowID" then some m else findRowID rest
  | _ :: rest => findRowID rest

/-- The short-circuit rowID branch of _matchConditions: an array
matcher is membership of row.rowID in the array under SameValueZero
equality, so a Date entry, being an object, never equals the primitive
row value; any other matcher compares row.rowID strictly against the
Number coercion of the matcher, where Number of a Date is its timestamp
and Number of a function or a regular expression is NaN. -/
def rowIDMatch (row : Row) : Matcher → Bool
  | .arr elems => elems.any fun e =>
      match e with
      | .val v => decide (rowGet row "rowID" = v)
      | .date _ => false
  | .prim v =>
      match toNumber v with
      | some q => decide (rowGet row "rowID" = JSVal.num q)
      | none => false
  | .date ms => decide (rowGet row "rowID" = JSVal.num (ms : ℚ))
  | .func _ => false
  | .regex _ => false

/-- The conversion applied to a row value before a function matcher is
invoked: when the string form has the two-two-four digit shape the
value is replaced by the Date constructed from it, otherwise it is
passed through unchanged. -/
def toFnArg (rowVal : JSVal) : FnArg :=
  if mdyPattern (jsToString rowVal) then .date (toDateMs rowVal) else .val rowVal

/-- Equality test of one array-matcher entry against a row value: a
Date entry compares the time value of a Date constructed from the row
value against its own, every other entry compares by strict value
equality. -/
def arrElemMatch (rowVal : JSVal) : ArrElem → Bool
  | .date ms => decide (toDateMs rowVal = some ms)
  | .val v => decide (rowVal = v)

/-- Field-value matching of one column key of a condition object, in
the priority order of the type tests in _matchConditions. -/
def matchField (row : Row) (key : String) (m : Matcher) : Bool :=
  let rowVal := rowGet row key
  match m with
  | .regex test => test (jsToString rowVal)
  | .func f => f (toFnArg rowVal)
  | .arr elems => elems.any (arrElemMatch rowVal)
  | .date ms => decide (toDateMs rowVal = some ms)
  | .prim v => decide (rowVal = v)

theorem cond_sizeOf_pos (l : List CClause) : 1 ≤ sizeOf l := by
  cases l <;> simp_arith

mutual
/-- The evaluator _matchConditions on a present condition object: an
empty object matches everything; a rowID key short-circuits everything
else; otherwise every key of the object must pass. -/
def matchConditions (row : Row) (conds : Cond) : Bool :=
  if conds.isEmpty then true
  else
    match findRowID conds with
    | some m => rowIDMatch row m
    | none => matchLoop row conds
termination_by 3 * sizeOf conds + 1
decreasing_by
  all_goals simp_wf

/-- The loop over the keys of a condition object: an AND key evaluates
its value as a nested condition, an OR key tries each sub-key of its
value as an independent single-key condition, a NOT key negates the
evaluation of its value, and a column key applies field matching; the
first failing key makes the whole condition false. -/
def matchLoop (row : Row) : Cond → Bool
  | [] => true
  | cl :: rest =>
    match cl with
    | .and c => matchConditions row c && matchLoop row rest
    | .or c => orLoop row c && matchLoop row rest
    | .not c => !matchConditions row c && matchLoop row rest
    | .field k m => matchField row k m && matchLoop row rest
termination_by c => 3 * sizeOf c
decreasing_by
  all_goals simp_wf
  all_goals omega

/-- The OR loop: each sub-key of the OR value is wrapped as a
single-key condition object and evaluated recursively; the first match
wins, and an empty OR value is false. -/
def orLoop (row : Row) : Cond → Bool
  | [] => false
  | cl :: rest => matchConditions row [cl] || orLoop row rest
termination_by c => 3 * sizeOf c + 2
decreasing_by
  all_goals simp_wf
  all_goals try (have h := cond_sizeOf_pos rest; omega)
end

/-- The entry guard of _matchConditions: an absent (null or undefined)
condition argument matches everything. -/
def matchConditionsOpt (row : Row) : Option Cond → Bool
  | none => true
  | some c => matchConditions row c

/-- The per-cell coercion getTable applies to a display string: a
string of the four-two-two digit date shape is kept as a string; else a
string that is numeric (not NaN) and does not trim to the empty string
becomes a number; else the string is kept. -/
def coerceCell (val : String) : JSVal :=
  if isoPattern val then .str val
  else
    match jsNumber val with
    | some q => if jsTrim val = "" then .str val else .num q
    | none => .str val

/-- One row object built by getTable: the synthetic rowID property set
to the table index plus two, then one property per header assigned in
order, a later assignment shadowing an earlier one; a missing cell is
undefined. -/
def buildCols : List String → List String → List (String × JSVal)
  | [], _ => []
  | h :: hs, [] => (h, JSVal.undef) :: buildCols hs []
  | h :: hs, c :: cs => (h, coerceCell c) :: buildCols hs cs

/-- Assemble the row object of getTable: assignments are kept in
reverse order so that first-match lookup realizes the last-write-wins
semantics of property assignment. -/
def buildRow (headers cells : List String) (idx : Nat) : Row :=
  (buildCols headers cells).reverse ++ [("rowID", JSVal.num ((idx : ℚ) + 2))]

/-- The data rows of getTable, indexed from zero. -/
def buildRows (headers : List String) : List (List String) → Nat → List Row
  | [], _ => []
  | r :: rest, idx => buildRow headers r idx :: buildRows headers rest (idx + 1)

/-- getTable over the display-string grid: fewer than two rows give an
empty table, otherwise the first row is the header row and each data
row becomes a row object. -/
def getTable (values : List (List String)) : List Row :=
  match values with
  | [] => []
  | headers :: dataRows =>
    if dataRows.isEmpty then []
    else buildRows headers dataRows 0

/-- getRowsFromTable: filter the table by the condition, then project
to the requested columns if a column list is supplied; projection
assigns every requested column, so a missing one appears as an
undefined entry. -/
def getRowsFromTable (table : List Row) (conds : Option Cond)
    (colNames : Option (List String)) : List Row :=
  (table.filter fun r => matchConditionsOpt r conds).map fun r =>
    match colNames with
    | none => r
    | some cs => cs.map fun c => (c, rowGet r c)

/-- getValuesFromTable: the values of one column over the rows that
match the condition. -/
def getValuesFromTable (table : List Row) (conds : Option Cond)
    (colName : String) : List JSVal :=
  (getRowsFromTable table conds (some [colName])).map fun r => rowGet r colName

/-- The collection loop of deleteRows: the sheet positions, table index
plus two, of the rows matching the condition, in table order, starting
from table index idx. -/
def collectPositions (conds : Option Cond) : List Row → Nat → List Nat
  | [], _ => []
  | r :: rest, idx =>
    if matchConditionsOpt r conds then (idx + 2) :: collectPositions conds rest (idx + 1)
    else collectPositions conds rest (idx + 1)

/-- The sequence of sheet positions deleteRows passes to deleteRow, in
order: the collected positions of the matching rows, reversed. -/
def deleteRowsPlan (table : List Row) (conds : Option Cond) : List Nat :=
  (collectPositions conds table 0).reverse

/-- The deleteRow primitive of the sheet: remove the element at the
given one-based position. -/
def removeRow1 (sheet : List Row) (pos : Nat) : List Row :=
  sheet.take (pos - 1) ++ sheet.drop pos

/-- Apply a sequence of one-based deletions to a sheet, in order. -/
def applyDeletes (sheet : List Row) (positions : List Nat) : List Row :=
  positions.foldl removeRow1 sheet

/-- A one-column row with the given rowID, for concrete scenarios. -/
def idRow (n : ℚ) : Row := [("rowID", JSVal.num n)]

/-- A five-row table with rowID values two to six, the delete scenario
of the specification. -/
def table5 : List Row := [idRow 2, idRow 3, idRow 4, idRow 5, idRow 6]

/-- The condition selecting rowID values three and four. -/
def rowIDcond34 : Cond :=
  [.field "rowID" (.arr [.val (JSVal.num 3), .val (JSVal.num 4)])]

theorem matchConditions_unfold (row : Row) (conds : Cond) :
    matchConditions row conds =
      if conds.isEmpty then true
      else
        match findRowID conds with
        | some m => rowIDMatch row m
        | none => matchLoop row conds := by
  rw [matchConditions.eq_def]

theorem matchConditions_nil (row : Row) : matchConditions row [] = true := by
  rw [matchConditions_unfold]; rfl

theorem matchLoop_nil (row : Row) : matchLoop row [] = true := by
  rw [matchLoop.eq_def]

theorem matchLoop_and (row : Row) (c : Cond) (rest : Cond) :
    matchLoop row (.and c :: rest) = (matchConditions row c && matchLoop row rest) := by
  rw [matchLoop.eq_def]

theorem matchLoop_or (row : Row) (c : Cond) (rest : Cond) :
    matchLoop row (.or c :: rest) = (orLoop row c && matchLoop row rest) := by
  rw [matchLoop.eq_def]

theorem matchLoop_not (row : Row) (c : Cond) (rest : Cond) :
    matchLoop row (.not c :: rest) = (!matchConditions row c && matchLoop row rest) := by
  rw [matchLoop.eq_def]

theorem matchLoop_field (row : Row) (k : String) (m : Matcher) (rest : Cond) :
    matchLoop row (.field k m :: rest) = (matchField row k m && matchLoop row rest) := by
  rw [matchLoop.eq_def]

theorem orLoop_nil (row : Row) : orLoop row [] = false := by
  rw [orLoop.eq_def]

theorem orLoop_cons (row : Row) (cl : CClause) (rest : Cond) :
    orLoop row (cl :: rest) = (matchConditions row [cl] || orLoop row rest) := by
  rw [orLoop.eq_def]

theorem matchConditions_rowID (row : Row) (conds : Cond) (m : Matcher)
    (h : findRowID conds = some m) :
    matchConditions row conds = rowIDMatch row m := by
  cases conds with
  | nil => simp [findRowID] at h
  | cons cl rest => rw [matchConditions_unfold]; simp [h]

theorem matchConditions_noRowID (row : Row) (conds : Cond)
    (h : findRowID conds = none) :
    matchConditions row conds = matchLoop row conds := by
  cases conds with
  | nil => rw [matchConditions_nil, matchLoop_nil]
  | cons cl rest => rw [matchConditions_unfold]; simp [h]

theorem findRowID_field_ne (k : String) (m : Matcher) (rest : Cond) (h : k ≠ "rowID") :
    findRowID (.field k m :: rest) = findRowID rest := by
  simp [findRowID, h]

theorem matchConditions_single_field (row : Row) (k : String) (m : Matcher)
    (h : k ≠ "rowID") :
    matchConditions row [.field k m] = matchField row k m := by
  rw [matchConditions_noRowID]
  · rw [matchLoop_field, matchLoop_nil, Bool.and_true]
  · rw [findRowID_field_ne _ _ _ h]; rfl

theorem matchConditions_single_not (row : Row) (c : Cond) :
    matchConditions row [.not c] = !matchConditions row c := by
  rw [matchConditions_noRowID]
  · rw [matchLoop_not, matchLoop_nil, Bool.and_true]
  · rfl

theorem matchConditions_single_and (row : Row) (c : Cond) :
    matchConditions row [.and c] = matchConditions row c := by
  rw [matchConditions_noRowID]
  · rw [matchLoop_and, matchLoop_nil, Bool.and_true]
  · rfl

theorem matchConditions_single_or (row : Row) (c : Cond) :
    matchConditions row [.or c] = orLoop row c := by
  rw [matchConditions_noRowID]
  · rw [matchLoop_or, matchLoop_nil, Bool.and_true]
  · rfl

/-- Claim C2: matches returns true when the condition is absent (null
or undefined) or is an object with no keys; the empty condition is a
universal matcher. -/
theorem claim_C2 (row : Row) :
    matchConditionsOpt row none = true ∧ matchConditions row [] = true :=
  ⟨rfl, matchConditions_nil row⟩

/-- Claim C1: a rowID key short-circuits the condition object, the
result being the rowID comparison alone with every other key ignored; a
list matcher succeeds exactly on membership of row.rowID in the list
with no coercion of list members, and a scalar matcher succeeds exactly
when row.rowID equals the matcher value coerced to a number. -/
theorem claim_C1 (row : Row) (conds : Cond) (m : Matcher)
    (h : findRowID conds = some m) :
    matchConditions row conds = rowIDMatch row m
    ∧ (∀ elems : List ArrElem,
        rowIDMatch row (.arr elems) = true ↔ ArrElem.val (rowGet row "rowID") ∈ elems)
    ∧ (∀ v : JSVal, rowIDMatch row (.prim v) = true ↔
        ∃ q : ℚ, toNumber v = some q ∧ rowGet row "rowID" = JSVal.num q) := by
  refine ⟨matchConditions_rowID row conds m h, ?_, ?_⟩
  · intro elems
    simp only [rowIDMatch, List.any_eq_true]
    constructor
    · rintro ⟨e, he, hme⟩
      cases e with
      | val v =>
        simp only [decide_eq_true_eq] at hme
        rw [hme]; exact he
      | date ms => simp at hme
    · intro hmem
      exact ⟨_, hmem, by simp⟩
  · intro v
    cases htn : toNumber v with
    | none => simp [rowIDMatch, htn]
    | some q => simp [rowIDMatch, htn]

/-- Witness for claim C1 at a concrete row and a two-key condition
whose second key is rowID: the other key is ignored. -/
theorem claim_C1_witness :
    matchConditions [("rowID", JSVal.num 3)]
        [CClause.field "age" (Matcher.prim (JSVal.num 9)),
         CClause.field "rowID" (Matcher.arr [ArrElem.val (JSVal.num 3)])] =
      rowIDMatch [("rowID", JSVal.num 3)] (Matcher.arr [ArrElem.val (JSVal.num 3)]) :=
  (claim_C1 [("rowID", JSVal.num 3)]
    [CClause.field "age" (Matcher.prim (JSVal.num 9)),
     CClause.field "rowID" (Matcher.arr [ArrElem.val (JSVal.num 3)])]
    (Matcher.arr [ArrElem.val (JSVal.num 3)]) rfl).1

/-- Claim C3 counterexample: with the first key equal to rowID, the AND
clause short-circuits and ignores the second key, so it differs from
the conjunction of the two single-key conditions. -/
theorem claim_C3_counterexample :
    ¬ (matchConditions [("rowID", JSVal.num 2), ("x", JSVal.num 5)]
          [.and [.field "rowID" (.arr [.val (JSVal.num 2)]),
                 .field "x" (.prim (JSVal.num 1))]] =
        (matchConditions [("rowID", JSVal.num 2), ("x", JSVal.num 5)]
            [.field "rowID" (.arr [.val (JSVal.num 2)])] &&
         matchConditions [("rowID", JSVal.num 2), ("x", JSVal.num 5)]
            [.field "x" (.prim (JSVal.num 1))])) := by
  rw [matchConditions_single_and,
    matchConditions_rowID _
      [.field "rowID" (.arr [.val (JSVal.num 2)]), .field "x" (.prim (JSVal.num 1))]
      (.arr [.val (JSVal.num 2)]) rfl,
    matchConditions_rowID _ [.field "rowID" (.arr [.val (JSVal.num 2)])]
      (.arr [.val (JSVal.num 2)]) rfl,
    matchConditions_single_field _ _ _ (by decide)]
  decide

/-- Claim C3 amended: provided neither key is the reserved key rowID,
AND of two field clauses equals the conjunction of the two single-field
conditions; OR of two keyed clauses equals the disjunction of the two
single-key conditions, and an OR clause with no sub-keys is false. -/
theorem claim_C3_amended (row : Row) (a b : String) (X Y : Matcher) :
    (a ≠ "rowID" → b ≠ "rowID" →
      matchConditions row [.and [.field a X, .field b Y]] =
        (matchConditions row [.field a X] && matchConditions row [.field b Y]))
    ∧ matchConditions row [.or [.field a X, .field b Y]] =
        (matchConditions row [.field a X] || matchConditions row [.field b Y])
    ∧ matchConditions row [.or []] = false := by
  refine ⟨?_, ?_, ?_⟩
  · intro ha hb
    rw [matchConditions_single_and,
      matchConditions_noRowID row _
        (by rw [findRowID_field_ne _ _ _ ha, findRowID_field_ne _ _ _ hb]; rfl),
      matchLoop_field, matchLoop_field, matchLoop_nil, Bool.and_true,
      matchConditions_single_field _ _ _ ha, matchConditions_single_field _ _ _ hb]
  · rw [matchConditions_single_or, orLoop_cons, orLoop_cons, orLoop_nil, Bool.or_false]
  · rw [matchConditions_single_or, orLoop_nil]

/-- Witness for the amended claim C3 at concrete keys and matchers. -/
theorem claim_C3_witness :
    (matchConditions [("a", JSVal.num 1)]
        [.and [.field "a" (.prim (JSVal.num 1)), .field "b" (.prim (JSVal.num 2))]] =
      (matchConditions [("a", JSVal.num 1)] [.field "a" (.prim (JSVal.num 1))] &&
       matchConditions [("a", JSVal.num 1)] [.field "b" (.prim (JSVal.num 2))]))
    ∧ matchConditions [("a", JSVal.num 1)]
        [.or [.field "a" (.prim (JSVal.num 1)), .field "b" (.prim (JSVal.num 2))]] =
        (matchConditions [("a", JSVal.num 1)] [.field "a" (.prim (JSVal.num 1))] ||
         matchConditions [("a", JSVal.num 1)] [.field "b" (.prim (JSVal.num 2))])
    ∧ matchConditions [("a", JSVal.num 1)] [.or []] = false := by
  have h := claim_C3_amended [("a", JSVal.num 1)] "a" "b"
    (.prim (JSVal.num 1)) (.prim (JSVal.num 2))
  exact ⟨h.1 (by decide) (by decide), h.2.1, h.2.2⟩

/-- Claim C4: double negation is the identity, and a NOT clause is true
exactly when evaluating its value as a whole condition is false. -/
theorem claim_C4 (row : Row) (c : Cond) :
    matchConditions row [.not [.not c]] = matchConditions row c
    ∧ (∀ d : Cond, matchConditions row [.not d] = !matchConditions row d) := by
  refine ⟨?_, fun d => matchConditions_single_not row d⟩
  rw [matchConditions_single_not, matchConditions_single_not, Bool.not_not]

theorem digitChar_isDigit (d : Nat) (hd : d < 10) : (digitChar d).isDigit = true := by
  interval_cases d <;> decide

theorem natChars_all_digit (n : Nat) : ∀ c ∈ natChars n, c.isDigit = true := by
  intro c hc
  unfold natChars at hc
  split at hc
  · simp at hc; subst hc; decide
  · simp only [List.mem_reverse, List.mem_map] at hc
    obtain ⟨d, hd, rfl⟩ := hc
    exact digitChar_isDigit d (Nat.digits_lt_base (by norm_num) hd)

theorem intChars_nonneg_all_digit (i : Int) (h : ¬ i < 0) :
    ∀ c ∈ intChars i, c.isDigit = true := by
  intro c hc
  unfold intChars at hc
  rw [if_neg h] at hc
  exact natChars_all_digit _ c hc

theorem mdyPattern_no_dash (cs : List Char) (h : ∀ c ∈ cs, c ≠ '-') :
    mdyPattern (String.mk cs) = false := by
  rw [Bool.eq_false_iff]
  intro hm
  have hcs : (String.mk cs).toList = cs := rfl
  simp only [mdyPattern, hcs, Bool.and_eq_true, beq_iff_eq] at hm
  have hlen : cs.length = 10 := by tauto
  have hdash : cs.getD 2 ' ' = '-' := by tauto
  have hmem : cs.getD 2 ' ' ∈ cs := by
    rw [List.getD_eq_getElem _ _ (by omega)]
    exact List.getElem_mem _
  exact h _ hmem hdash

theorem mdyPattern_dash_head (cs : List Char) :
    mdyPattern (String.mk ('-' :: cs)) = false := by
  rw [Bool.eq_false_iff]
  intro hm
  have hcs : (String.mk ('-' :: cs)).toList = '-' :: cs := rfl
  simp only [mdyPattern, hcs, Bool.and_eq_true, beq_iff_eq] at hm
  have h0 : (('-' :: cs).getD 0 ' ').isDigit = true := by tauto
  rw [List.getD_cons_zero] at h0
  exact absurd h0 (by decide)

theorem mdyPattern_num_false (q : ℚ) : mdyPattern (jsToString (JSVal.num q)) = false := by
  simp only [jsToString]
  by_cases hneg : q.num < 0
  · have hint : intChars q.num = '-' :: natChars q.num.natAbs := by
      unfold intChars; rw [if_pos hneg]
    by_cases hden : q.den = 1
    · rw [if_pos hden, hint]
      exact mdyPattern_dash_head _
    · rw [if_neg hden, hint, List.cons_append]
      exact mdyPattern_dash_head _
  · apply mdyPattern_no_dash
    intro c hc
    by_cases hden : q.den = 1
    · rw [if_pos hden] at hc
      exact fun e => absurd (intChars_nonneg_all_digit _ hneg c hc) (by rw [e]; decide)
    · rw [if_neg hden] at hc
      rcases List.mem_append.mp hc with hc1 | hc2
      · exact fun e => absurd (intChars_nonneg_all_digit _ hneg c hc1) (by rw [e]; decide)
      · rcases List.mem_cons.mp hc2 with rfl | hc3
        · decide
        · exact fun e => absurd (natChars_all_digit _ c hc3) (by rw [e]; decide)

theorem isoPattern_mdy_false (s : String) (h : isoPattern s = true) :
    mdyPattern s = false := by
  rw [Bool.eq_false_iff]
  intro hm
  simp only [isoPattern, Bool.and_eq_true, beq_iff_eq] at h
  simp only [mdyPattern, Bool.and_eq_true, beq_iff_eq] at hm
  have h2 : (s.toList.getD 2 ' ').isDigit = true := by tauto
  have h2d : s.toList.getD 2 ' ' = '-' := by tauto
  rw [h2d] at h2
  exact absurd h2 (by decide)

/-- Claim C5: before a function matcher is invoked the row value is
converted to a Date exactly when it is a string of the two-two-four
digit shape; in particular a string of the four-two-two ISO shape is
passed through unconverted, as a plain string; and the clause is true
exactly when the predicate returns true on the possibly converted
value. -/
theorem claim_C5 (row : Row) (key : String) (f : FnArg → Bool) (h : key ≠ "rowID") :
    matchConditions row [.field key (.func f)] = f (toFnArg (rowGet row key))
    ∧ (∀ v : JSVal, toFnArg v = FnArg.val v ∨
        ∃ s, v = JSVal.str s ∧ mdyPattern s = true ∧ toFnArg v = FnArg.date (toDateMs v))
    ∧ (∀ s, mdyPattern s = true →
        toFnArg (JSVal.str s) = FnArg.date (parseDateString s))
    ∧ (∀ s, isoPattern s = true → toFnArg (JSVal.str s) = FnArg.val (JSVal.str s)) := by
  refine ⟨?_, ?_, ?_, ?_⟩
  · rw [matchConditions_single_field _ _ _ h]; rfl
  · intro v
    cases v with
    | str s =>
      by_cases hm : mdyPattern s = true
      · right
        exact ⟨s, rfl, hm, by simp [toFnArg, jsToString, hm]⟩
      · left
        simp only [toFnArg, jsToString]
        rw [if_neg (by simpa using hm)]
    | num q =>
      left
      unfold toFnArg
      rw [if_neg (by rw [mdyPattern_num_false q]; simp)]
    | bool b =>
      left
      unfold toFnArg
      rw [if_neg (by cases b <;> decide)]
    | undef =>
      left
      unfold toFnArg
      rw [if_neg (by decide)]
  · intro s hm
    simp [toFnArg, jsToString, hm, toDateMs]
  · intro s hi
    simp only [toFnArg, jsToString]
    rw [if_neg (by rw [isoPattern_mdy_false s hi]; simp)]

/-- Witness for claim C5: the month-day-year shaped string is converted
to the Date parsed from it. -/
theorem claim_C5_witness :
    toFnArg (JSVal.str "01-02-2020") = FnArg.date (parseDateString "01-02-2020") :=
  (claim_C5 [] "d" (fun _ => true) (by decide)).2.2.1 "01-02-2020" (by decide)

/-- Claim C6: a list matcher is true exactly when some entry matches
the row value, a date entry comparing by the instant of the Date built
from the row value and every other entry by strict equality; a bare
date matcher compares instants the same way; and the ISO string
2020-01-01 matches the list holding the Date of that day even though
the types differ. -/
theorem claim_C6 (row : Row) (key : String) (h : key ≠ "rowID") :
    (∀ elems : List ArrElem, matchConditions row [.field key (.arr elems)] =
        elems.any (arrElemMatch (rowGet row key)))
    ∧ (∀ (v : JSVal) (ms : Int),
        arrElemMatch v (ArrElem.date ms) = decide (toDateMs v = some ms))
    ∧ (∀ v w : JSVal, arrElemMatch v (ArrElem.val w) = decide (v = w))
    ∧ (∀ ms : Int, matchConditions row [.field key (.date ms)] =
        decide (toDateMs (rowGet row key) = some ms))
    ∧ matchConditions [("d", JSVal.str "2020-01-01")]
        [.field "d" (.arr [.date 1577836800000])] = true := by
  refine ⟨?_, fun v ms => rfl, fun v w => rfl, ?_, ?_⟩
  · intro elems
    rw [matchConditions_single_field _ _ _ h]; rfl
  · intro ms
    rw [matchConditions_single_field _ _ _ h]; rfl
  · rw [matchConditions_single_field _ _ _ (by decide)]
    decide

/-- Witness for claim C6: the date-in-list example evaluated at its
concrete row. -/
theorem claim_C6_witness :
    matchConditions [("d", JSVal.str "2020-01-01")]
        [.field "d" (.arr [.date 1577836800000])] = true :=
  (claim_C6 [("d", JSVal.str "2020-01-01")] "d" (by decide)).2.2.2.2

/-- Claim C7: the evaluator is a total function over the condition
grammar, and a matcher that is none of regular expression, function,
array or Date falls to the default rule, true exactly when the row
value strictly equals the matcher with no type coercion, so a numeric
column never matches a numeric-looking string literal. -/
theorem claim_C7 (row : Row) (key : String) (h : key ≠ "rowID") :
    (∀ v : JSVal, matchConditions row [.field key (.prim v)] =
        decide (rowGet row key = v))
    ∧ (∀ conds : Cond, matchConditions row conds = true ∨ matchConditions row conds = false)
    ∧ matchConditions [("age", JSVal.num 25)] [.field "age" (.prim (JSVal.str "25"))] = false := by
  refine ⟨?_, ?_, ?_⟩
  · intro v
    rw [matchConditions_single_field _ _ _ h]; rfl
  · intro conds
    cases matchConditions row conds
    · right; rfl
    · left; rfl
  · rw [matchConditions_single_field _ _ _ (by decide)]
    decide

/-- Witness for claim C7: the number twenty-five does not match the
string of the same digits. -/
theorem claim_C7_witness :
    matchConditions [("age", JSVal.num 25)] [.field "age" (.prim (JSVal.str "25"))] = false :=
  (claim_C7 [("age", JSVal.num 25)] "age" (by decide)).2.2

/-- Claim C8: the load-time cell coercion keeps a string of the ISO
date shape as a string, turns any other string that coerces to a number
and does not trim to empty into that number, and keeps every remaining
string, the empty string included. -/
theorem claim_C8 (s : String) :
    (isoPattern s = true → coerceCell s = JSVal.str s)
    ∧ (isoPattern s = false → ∀ q : ℚ, jsNumber s = some q → jsTrim s ≠ "" →
        coerceCell s = JSVal.num q)
    ∧ (isoPattern s = false → jsNumber s = none → coerceCell s = JSVal.str s)
    ∧ (isoPattern s = false → jsTrim s = "" → coerceCell s = JSVal.str s)
    ∧ coerceCell "" = JSVal.str "" := by
  refine ⟨?_, ?_, ?_, ?_, by decide⟩
  · intro hi
    simp [coerceCell, hi]
  · intro hi q hq ht
    simp [coerceCell, hi, hq, ht]
  · intro hi hq
    simp [coerceCell, hi, hq]
  · intro hi ht
    cases hq : jsNumber s with
    | none => simp [coerceCell, hi, hq]
    | some q => simp [coerceCell, hi, hq, ht]

/-- Witness for claim C8: a string that is not numeric and not of the
ISO date shape is kept as a string. -/
theorem claim_C8_witness : coerceCell "abc" = JSVal.str "abc" :=
  (claim_C8 "abc").2.2.1 (by decide) (by decide)

/-- Claim C10: the values returned for a column are exactly that
column over the rows matching the condition, in table order; this
equals projecting the column over the filtered rows, which form an
order-preserving subsequence of the table; and a row without the
column contributes an undefined value. -/
theorem claim_C10 (table : List Row) (conds : Option Cond) (c : String) :
    getValuesFromTable table conds c =
        (table.filter fun r => matchConditionsOpt r conds).map (fun r => rowGet r c)
    ∧ getValuesFromTable table conds c =
        (getRowsFromTable table conds none).map (fun r => rowGet r c)
    ∧ getRowsFromTable table conds none = (table.filter fun r => matchConditionsOpt r conds)
    ∧ (getRowsFromTable table conds none).Sublist table
    ∧ (∀ r : Row, c ∉ r.map Prod.fst → rowGet r c = JSVal.undef) := by
  have hproj : ∀ r : Row, rowGet [(c, rowGet r c)] c = rowGet r c := fun r => by
    simp [rowGet]
  have h3 : getRowsFromTable table conds none =
      (table.filter fun r => matchConditionsOpt r conds) := by
    simp [getRowsFromTable]
  have h1 : getValuesFromTable table conds c =
      (table.filter fun r => matchConditionsOpt r conds).map (fun r => rowGet r c) := by
    unfold getValuesFromTable getRowsFromTable
    rw [List.map_map]
    refine List.map_congr_left fun r hr => ?_
    simpa using hproj r
  refine ⟨h1, ?_, h3, ?_, ?_⟩
  · rw [h1, h3]
  · rw [h3]
    exact List.filter_sublist _
  · intro r
    induction r with
    | nil => intro _; rfl
    | cons p rest ih =>
      intro hc
      simp only [List.map_cons, List.mem_cons] at hc
      push_neg at hc
      rw [rowGet, if_neg (fun e => hc.1 (by rw [e]))]
      exact ih hc.2

/-- Witness for claim C10: the empty row yields undefined for any
column. -/
theorem claim_C10_witness : rowGet [] "x" = JSVal.undef :=
  (claim_C10 [] none "x").2.2.2.2 [] (by simp)

theorem collectPositions_bounds (conds : Option Cond) :
    ∀ (table : List Row) (k p : Nat), p ∈ collectPositions conds table k →
      k + 2 ≤ p ∧ p ≤ k + 1 + table.length := by
  intro table
  induction table with
  | nil => intro k p hp; simp [collectPositions] at hp
  | cons r rest ih =>
    intro k p hp
    unfold collectPositions at hp
    by_cases hm : matchConditionsOpt r conds = true
    · rw [if_pos hm] at hp
      rcases List.mem_cons.mp hp with rfl | hp2
      · simp only [List.length_cons]; omega
      · have := ih (k + 1) p hp2
        simp only [List.length_cons]
        omega
    · rw [if_neg hm] at hp
      have := ih (k + 1) p hp
      simp only [List.length_cons]
      omega

theorem collectPositions_sorted (conds : Option Cond) :
    ∀ (table : List Row) (k : Nat), List.Pairwise (· < ·) (collectPositions conds table k) := by
  intro table
  induction table with
  | nil => intro k; simp [collectPositions]
  | cons r rest ih =>
    intro k
    unfold collectPositions
    by_cases hm : matchConditionsOpt r conds = true
    · rw [if_pos hm]
      refine List.pairwise_cons.mpr ⟨?_, ih (k + 1)⟩
      intro p hp
      have := (collectPositions_bounds conds rest (k + 1) p hp).1
      omega
    · rw [if_neg hm]
      exact ih (k + 1)

theorem collectPositions_mem (conds : Option Cond) :
    ∀ (table : List Row) (k p : Nat),
      p ∈ collectPositions conds table k ↔
        ∃ i, i < table.length ∧ p = k + i + 2 ∧
          matchConditionsOpt (table.getD i []) conds = true := by
  intro table
  induction table with
  | nil => intro k p; simp [collectPositions]
  | cons r rest ih =>
    intro k p
    unfold collectPositions
    by_cases hm : matchConditionsOpt r conds = true
    · rw [if_pos hm]
      simp only [List.mem_cons, ih (k + 1)]
      constructor
      · rintro (rfl | ⟨i, hi, rfl, hmi⟩)
        · exact ⟨0, by simp, by omega, by simpa using hm⟩
        · refine ⟨i + 1, ?_, by omega, by simpa using hmi⟩
          simp only [List.length_cons]; omega
      · rintro ⟨i, hi, rfl, hmi⟩
        cases i with
        | zero => left; omega
        | succ j =>
          right
          refine ⟨j, ?_, by omega, by simpa using hmi⟩
          simp only [List.length_cons] at hi; omega
    · rw [if_neg hm]
      rw [ih (k + 1)]
      constructor
      · rintro ⟨i, hi, rfl, hmi⟩
        refine ⟨i + 1, ?_, by omega, by simpa using hmi⟩
        simp only [List.length_cons]; omega
      · rintro ⟨i, hi, rfl, hmi⟩
        cases i with
        | zero => exact absurd (by simpa using hmi) hm
        | succ j =>
          refine ⟨j, ?_, by omega, by simpa using hmi⟩
          simp only [List.length_cons] at hi; omega

theorem applyDeletes_concat (sheet : List Row) (ps : List Nat) (p : Nat) :
    applyDeletes sheet (ps ++ [p]) = removeRow1 (applyDeletes sheet ps) p := by
  unfold applyDeletes
  rw [List.foldl_append]
  rfl

theorem removeRow1_at (pre : List Row) (r : Row) (tail : List Row) :
    removeRow1 (pre ++ r :: tail) (pre.length + 1) = pre ++ tail := by
  unfold removeRow1
  have h1 : pre.length + 1 - 1 = pre.length := by omega
  rw [h1, List.take_left]
  have h2 : pre ++ r :: tail = (pre ++ [r]) ++ tail := by simp
  rw [h2, show pre.length + 1 = (pre ++ [r]).length by simp, List.drop_left]

theorem applyDeletes_collect (conds : Option Cond) :
    ∀ (table : List Row) (k : Nat) (pre : List Row), pre.length = k + 1 →
      applyDeletes (pre ++ table) ((collectPositions conds table k).reverse) =
        pre ++ table.filter (fun r => !matchConditionsOpt r conds) := by
  intro table
  induction table with
  | nil => intro k pre hpre; simp [collectPositions, applyDeletes]
  | cons r rest ih =>
    intro k pre hpre
    unfold collectPositions
    have hsplit : pre ++ r :: rest = (pre ++ [r]) ++ rest := by simp
    by_cases hm : matchConditionsOpt r conds = true
    · rw [if_pos hm, List.reverse_cons, applyDeletes_concat, hsplit,
        ih (k + 1) (pre ++ [r]) (by simp [hpre])]
      have hfil : List.filter (fun r => !matchConditionsOpt r conds) (r :: rest) =
          List.filter (fun r => !matchConditionsOpt r conds) rest := by
        simp [List.filter_cons, hm]
      rw [hfil, show k + 2 = pre.length + 1 by omega,
        show (pre ++ [r]) ++ List.filter (fun r => !matchConditionsOpt r conds) rest =
          pre ++ r :: List.filter (fun r => !matchConditionsOpt r conds) rest by simp]
      exact removeRow1_at pre r _
    · rw [if_neg hm, hsplit, ih (k + 1) (pre ++ [r]) (by simp [hpre])]
      have hfil : List.filter (fun r => !matchConditionsOpt r conds) (r :: rest) =
          r :: List.filter (fun r => !matchConditionsOpt r conds) rest := by
        simp [List.filter_cons, hm]
      rw [hfil]
      simp

/-- Claim C9: deleteRows collects the sheet positions, table index plus
two, of the matching rows and issues the deletions in strictly
descending order, so that applying them to the sheet removes exactly
the matching rows; in the concrete scenario, deleting rowID values
three and four from a five-row table removes positions three and four
and leaves row five intact. -/
theorem claim_C9 (table : List Row) (conds : Option Cond) (header : Row) :
    List.Pairwise (· > ·) (deleteRowsPlan table conds)
    ∧ applyDeletes (header :: table) (deleteRowsPlan table conds) =
        header :: table.filter (fun r => !matchConditionsOpt r conds)
    ∧ (∀ p, p ∈ deleteRowsPlan table conds ↔
        ∃ i, i < table.length ∧ p = i + 2 ∧
          matchConditionsOpt (table.getD i []) conds = true)
    ∧ deleteRowsPlan table5 (some rowIDcond34) = [4, 3]
    ∧ applyDeletes (header :: table5) [4, 3] = header :: [idRow 2, idRow 5, idRow 6] := by
  have hm34 : ∀ r : Row, matchConditionsOpt r (some rowIDcond34) =
      rowIDMatch r (.arr [.val (JSVal.num 3), .val (JSVal.num 4)]) := fun r =>
    matchConditions_rowID r rowIDcond34 (.arr [.val (JSVal.num 3), .val (JSVal.num 4)]) rfl
  refine ⟨?_, ?_, ?_, ?_, ?_⟩
  · unfold deleteRowsPlan
    rw [List.pairwise_reverse]
    simpa using collectPositions_sorted conds table 0
  · have h := applyDeletes_collect conds table 0 [header] rfl
    simpa using h
  · intro p
    unfold deleteRowsPlan
    rw [List.mem_reverse, collectPositions_mem conds table 0 p]
    constructor
    · rintro ⟨i, h1, h2, h3⟩
      exact ⟨i, h1, by omega, h3⟩
    · rintro ⟨i, h1, h2, h3⟩
      exact ⟨i, h1, by omega, h3⟩
  · simp only [deleteRowsPlan, table5, collectPositions, hm34]
    decide
  · rfl

end SheetUtils
